import Mathlib

/-!
Verification of the incremental dependency-impact analysis engine and its
lock / scheduling layer (`gilfoyle_agent.py`, `smart_orchestrator.py`,
`agent_lock.py`).  The Python code is shallowly embedded: dictionaries
become association lists, Python sets become deduplicated lists (iteration
order of a Python set is implementation-defined, so only order-independent
facts are stated about them), file-system and flock state is passed
explicitly, and `time.time()` values are integers.
-/

/-! ## Generic helpers shared by the embeddings -/

/-- Association-list lookup, first match wins (Python `dict[key]` /
`dict.get`). -/
def alookup {α : Type} : List (String × α) → String → Option α
  | [], _ => none
  | (k, v) :: rest, key => if k == key then some v else alookup rest key

/-- Python `dict[k] = v`: update in place if the key exists, else append. -/
def dictInsert {α : Type} (d : List (String × α)) (k : String) (v : α) :
    List (String × α) :=
  if d.any (fun p => p.1 == k) then
    d.map (fun p => if p.1 == k then (k, v) else p)
  else d ++ [(k, v)]

/-- Python dict comprehension over a list of key/value pairs: keys keep
first-occurrence order, a later duplicate key overwrites the value. -/
def pyDict {α : Type} (ps : List (String × α)) : List (String × α) :=
  ps.foldl (fun d p => dictInsert d p.1 p.2) []

/-- Python's substring test `pat in s`. -/
def pyIn (pat s : String) : Bool := decide (pat.toList <:+: s.toList)

/-- Python `str.lower()` (the identifiers involved are ASCII, where
`Char.toLower` agrees with Python). -/
def pyLower (s : String) : String := String.mk (s.toList.map Char.toLower)

/-- Join a list of strings with a separator (Python `sep.join(...)`). -/
def joinSep (sep : String) : List String → String
  | [] => ""
  | [x] => x
  | x :: xs => x ++ sep ++ joinSep sep xs

/-- Deduplicate keeping the first occurrence of each element (a
determinization of a Python set built from a list). -/
def dedupFirstAux (seen : List String) : List String → List String
  | [] => []
  | x :: xs =>
      if x ∈ seen then dedupFirstAux seen xs
      else x :: dedupFirstAux (x :: seen) xs

/-- See `dedupFirstAux`. -/
def dedupFirst (l : List String) : List String := dedupFirstAux [] l

/-- `pathlib.Path(p).stem`: the final path component without its last
suffix (CPython drops from the last dot when `0 < i < len(name) - 1`). -/
def pyStem (p : String) : String :=
  let name := (p.toList.reverse.takeWhile (fun c => c ≠ '/')).reverse
  match name.reverse.findIdx? (fun c => c == '.') with
  | none => String.mk name
  | some r =>
      let i := name.length - 1 - r
      if 0 < i ∧ i < name.length - 1 then String.mk (name.take i)
      else String.mk name

example : pyStem "A.py" = "A" := by decide
example : pyStem "dir/b.tar.gz" = "b.tar" := by decide
example : pyStem ".bashrc" = ".bashrc" := by decide
example : pyIn "mod" "calls_modified: x" = true := by decide
example : pyIn "zz" "calls" = false := by decide
example : pyLower "ABc" = "abc" := by decide
example : joinSep ", " ["a", "b"] = "a, b" := by decide

/-! ## Embedding of `gilfoyle_agent.py` (`BuildHealthMonitor`)

The dependency graph is a Python dict `filepath -> entry`, embedded as an
association list.  Extraction from source text (`parse_with_treesitter`)
performs file I/O, so the functions below take the parsed result as an
explicit argument where the Python code would parse a file.
-/

/-- One definition record produced by extraction.  The tree-sitter path
always stores a `signature`; the basic fallback parser omits it, hence the
`Option` (the code reads it with `d.get('signature', '')`). -/
structure DefRecord where
  name : String
  dtype : String
  signature : Option String
  line : Nat
deriving DecidableEq

/-- `d.get('signature', '')`. -/
def sigText (d : DefRecord) : String := d.signature.getD ""

/-- One entry of `detect_signature_changes`'s result list. -/
structure SigChange where
  name : String
  old : String
  new : String
deriving DecidableEq

/-- One value of the dependency-graph dict (`analyze_dependencies` stores
exactly these five fields). -/
structure GraphEntry where
  imports : List String
  definitions : List DefRecord
  calls : List String
  language : String
  sigChanges : List SigChange
deriving DecidableEq

/-- The dependency graph `self.dependency_graph`. -/
abbrev DepGraph : Type := List (String × GraphEntry)

/-- The entry used by `dict.get(f, {})` when a file is absent. -/
def emptyEntry : GraphEntry := ⟨[], [], [], "", []⟩

/-- The dict `{d['name']: d.get('signature', '') for d in defs}` built by
`detect_signature_changes` on each definition list. -/
def sigDict (defs : List DefRecord) : List (String × String) :=
  pyDict (defs.map (fun d => (d.name, sigText d)))

/-- Core of `BuildHealthMonitor.detect_signature_changes`: both definition
lists are turned into `name -> signature` dicts and a change is reported
for every name of the new dict that is also in the old dict with a
different signature text. -/
def signatureChangesCore (oldDefs newDefs : List DefRecord) : List SigChange :=
  (sigDict newDefs).filterMap (fun p =>
    match alookup (sigDict oldDefs) p.1 with
    | some oldSig => if oldSig ≠ p.2 then some ⟨p.1, oldSig, p.2⟩ else none
    | none => none)

/-- `BuildHealthMonitor.detect_signature_changes`: returns `[]` when the
file has no previous graph entry; otherwise compares the stored
definitions with the freshly parsed ones (`parsedDefs` stands for
`self.parse_with_treesitter(filepath)['definitions']`). -/
def detectSignatureChanges (g : DepGraph) (filepath : String)
    (parsedDefs : List DefRecord) : List SigChange :=
  match alookup g filepath with
  | none => []
  | some oldData => signatureChangesCore oldData.definitions parsedDefs

/-- One value of the `impacted` dict built by `find_impacted_files`. -/
structure Impact where
  reasons : List String
  severity : String
deriving DecidableEq

/-- The call-name intersection `changed_def_names & set(calls)`,
determinized to first-occurrence order of the calls list (Python set
iteration order is arbitrary; every fact stated below is
order-independent). -/
def callIntersection (changedDefNames calls : List String) : List String :=
  dedupFirst (calls.filter (fun c => changedDefNames.contains c))

/-- `BuildHealthMonitor.find_impacted_files`.  When the changed file has
no graph entry the code first runs `analyze_dependencies` on it, which
appends a freshly parsed entry (`analyzed` stands for that parse result).
Every *other* graph entry gets an impact record when it imports the
changed file's basename (case-insensitive substring test) or calls one of
its definitions; a call reason is `calls_modified: ...` listing the
signature-changed called names when any called name changed signature,
else `calls: ...` listing all called names; severity is `high` iff some
reason string contains `modified`.

The loop body is split into named pieces mirroring its local variables:
`importReasonHit` is the `imports` test, `callReasonsOf` builds the call
reason, `reasonsOf` is the full reason list, `severityOf` the severity,
and `impactOf` the whole body for one entry `pd` (the changed file itself
is skipped). -/
def importReasonHit (basenameLower : String) (e : GraphEntry) : Bool :=
  e.imports.any (fun imp => pyIn basenameLower (pyLower imp))

/-- `changed_def_names` of `find_impacted_files`. -/
def changedDefNamesOf (e : GraphEntry) : List String :=
  e.definitions.map (fun d => d.name)

/-- `sig_changed_funcs` source names of `find_impacted_files`. -/
def sigNamesOf (e : GraphEntry) : List String :=
  e.sigChanges.map (fun c => c.name)

/-- See `importReasonHit`. -/
def callReasonsOf (changedDefNames sigNames : List String) (e : GraphEntry) :
    List String :=
  let inter := callIntersection changedDefNames e.calls
  let interMod := inter.filter (fun c => sigNames.contains c)
  if inter.isEmpty then []
  else if !interMod.isEmpty then
    ["calls_modified: " ++ joinSep ", " interMod]
  else ["calls: " ++ joinSep ", " inter]

/-- See `importReasonHit`. -/
def reasonsOf (basenameLower : String) (changedDefNames sigNames : List String)
    (e : GraphEntry) : List String :=
  (if importReasonHit basenameLower e then ["imports"] else [])
    ++ callReasonsOf changedDefNames sigNames e

/-- See `importReasonHit`. -/
def severityOf (reasons : List String) : String :=
  if reasons.any (fun r => pyIn "modified" r) then "high" else "medium"

/-- See `importReasonHit`. -/
def impactOf (changedFile basenameLower : String)
    (changedDefNames sigNames : List String) (pd : String × GraphEntry) :
    Option (String × Impact) :=
  if pd.1 == changedFile then none
  else
    let reasons := reasonsOf basenameLower changedDefNames sigNames pd.2
    if reasons.isEmpty then none
    else some (pd.1, ⟨reasons, severityOf reasons⟩)

/-- See `impactOf` for the per-entry loop body. -/
def findImpactedFiles (g : DepGraph) (changedFile : String)
    (analyzed : GraphEntry) : List (String × Impact) :=
  let g' : DepGraph :=
    if (alookup g changedFile).isSome then g else g ++ [(changedFile, analyzed)]
  let changedData := (alookup g' changedFile).getD emptyEntry
  g'.filterMap (impactOf changedFile (pyLower (pyStem changedFile))
    (changedDefNamesOf changedData) (sigNamesOf changedData))

/-- Resolution rule of `detect_circular_dependencies`: an import
identifier `neighbor` resolves to graph file `filepath` when
`neighbor in filepath or Path(filepath).stem == neighbor`
(case-sensitive substring of the full path, or exact stem equality). -/
def resolvesImport (neighbor filepath : String) : Bool :=
  pyIn neighbor filepath || pyStem filepath == neighbor

/-- The sequence of resolved neighbour files visited by the two nested
loops `for neighbor in imports: for filepath in graph: ...`. -/
def neighborList (g : DepGraph) (imports : List String) : List String :=
  imports.flatMap (fun imp =>
    (g.filter (fun p => resolvesImport imp p.1)).map (fun p => p.1))

/-- One iteration of the neighbour loop of `has_cycle` (the accumulator
carries the found-flag and the visited set, which Python threads by
mutation and early `return`): once a cycle is found the rest is skipped;
an unvisited neighbour is explored (`explore` is the recursive call); a
visited neighbour on the recursion stack is a back-edge (cycle found); a
visited neighbour off the stack is skipped. -/
def cycleFoldStep (explore : String → List String → Bool × List String)
    (recStack : List String) (acc : Bool × List String) (f : String) :
    Bool × List String :=
  if acc.1 then acc
  else if f ∈ acc.2 then
    if f ∈ recStack then (true, acc.2) else acc
  else explore f acc.2

/-- `has_cycle(node, visited, rec_stack)` of
`detect_circular_dependencies`: marks the node visited and on the
recursion stack, then scans its resolved neighbours left to right with
`cycleFoldStep`.  The Python recursion terminates because each nested
call visits a fresh node; the `fuel` argument makes that explicit
(callers pass `g.length + 1`, which that argument shows is never
exhausted). -/
def hasCycleNode (g : DepGraph) : Nat → String → List String → List String →
    Bool × List String
  | 0, _, visited, _ => (false, visited)
  | fuel + 1, node, visited, recStack =>
      let visited := node :: visited
      let recStack := node :: recStack
      match alookup g node with
      | none => (false, visited)
      | some entry =>
          (neighborList g entry.imports).foldl
            (cycleFoldStep (fun f v => hasCycleNode g fuel f v recStack)
              recStack)
            (false, visited)

/-- `BuildHealthMonitor.detect_circular_dependencies`: starts a fresh DFS
from every graph node (the outer `visited` set in the Python code is never
updated, so every node starts its own search with empty sets). -/
def detectCircularDependencies (g : DepGraph) : Bool :=
  g.any (fun p => (hasCycleNode g (g.length + 1) p.1 [] []).1)

/-- `total_impacted` of `calculate_risk_level`: impacted-file count summed
over all changed files. -/
def totalImpactedOf (fileImpacts : List (String × List (String × Impact))) : Nat :=
  (fileImpacts.map (fun p => p.2.length)).sum

/-- `high_severity_count` of `calculate_risk_level`: impact entries with
severity `high`. -/
def highSeverityCountOf (fileImpacts : List (String × List (String × Impact))) : Nat :=
  (fileImpacts.map (fun p =>
    (p.2.filter (fun q => q.2.severity == "high")).length)).sum

/-- `has_sig_changes` of `calculate_risk_level`: some changed file's graph
entry has a non-empty signature-change list. -/
def hasSigChangesOf (g : DepGraph) (changedFiles : List String) : Bool :=
  changedFiles.any (fun f => !((alookup g f).getD emptyEntry).sigChanges.isEmpty)

/-- `BuildHealthMonitor.calculate_risk_level` (the risk-level string; the
emoji component of the Python pair is presentation only). -/
def calculateRiskLevel (g : DepGraph) (changedFiles : List String)
    (fileImpacts : List (String × List (String × Impact))) : String :=
  if detectCircularDependencies g
      || decide (highSeverityCountOf fileImpacts > 5)
      || decide (totalImpactedOf fileImpacts > 15) then "high"
  else if hasSigChangesOf g changedFiles
      || decide (highSeverityCountOf fileImpacts > 0)
      || decide (totalImpactedOf fileImpacts > 5) then "medium"
  else "low"

/-- Modelled from the spec (§4.4 / claim C4's edge rule): an import edge
from file `a` to file `b` exists when some import identifier of `a`
contains `b`'s basename as a case-insensitive substring — the rule
`find_impacted_files` uses, which claim C4 asserts the cycle detector
shares. -/
def specImportEdge (g : DepGraph) (a b : String) : Bool :=
  ((alookup g a).getD emptyEntry).imports.any (fun imp =>
    pyIn (pyLower (pyStem b)) (pyLower imp))

/-! ## Embedding of `smart_orchestrator.py` (`SmartOrchestrator`)

The file tree under the project root is passed explicitly: one record per
regular file, carrying the data `get_changed_files` / `_hash_file` /
`get_project_size` inspect.  The content hash `md5(content).hexdigest()`
is abstracted by the field `contentHash` (what matters is equality of
hashes between scans). -/

/-- One regular file under the project root. -/
structure FSFile where
  /-- Path components of the file relative to the project root. -/
  parts : List String
  /-- Whether `file_path.stat()` succeeds. -/
  statOk : Bool
  /-- Whether `file_path.read_bytes()` succeeds. -/
  readOk : Bool
  size : Nat
  mtime : Int
  /-- Stands for `hashlib.md5(content).hexdigest()`. -/
  contentHash : String
deriving DecidableEq

/-- The project tree: the root directory's mtime plus its regular files
(in `rglob` order). -/
structure FSTree where
  rootMtime : Int
  files : List FSFile
deriving DecidableEq

/-- In-memory scan state: `self.file_hashes` and
`self.cache["last_scan_mtime"]` (`cache.get("last_scan_mtime", 0)`). -/
structure ScanState where
  hashes : List (String × String)
  lastScanMtime : Int
deriving DecidableEq

/-- Python `part.startswith(".")`: the first character is a dot. -/
def startsWithDot (s : String) : Bool := s.toList.head? == some '.'

/-- The skip tests of the `get_changed_files` loop: any path component
starting with `.` (unless some component is `.claude`), or a
`node_modules` or `__pycache__` component. -/
def scanIgnored (parts : List String) : Bool :=
  (parts.any (fun part => startsWithDot part)
      && !parts.any (fun part => part == ".claude"))
    || parts.contains "node_modules" || parts.contains "__pycache__"

/-- `str(file_path.relative_to(self.project_root))`. -/
def relPath (f : FSFile) : String := joinSep "/" f.parts

/-- `SmartOrchestrator._hash_file`: `"error"` if `stat` fails; the
`size_mtime` fingerprint for files over 1 MB; `"error"` if reading fails;
else the content hash.  (The enclosing `except` returns `"error"` for
either failing call.) -/
def hashFile (f : FSFile) : String :=
  if !f.statOk then "error"
  else if f.size > 1000000 then toString f.size ++ "_" ++ toString f.mtime
  else if !f.readOk then "error"
  else f.contentHash

/-- One iteration of the `get_changed_files` scan loop: skip ignored
files, fingerprint the rest, report the file as changed and write the new
fingerprint into the cache when the key is absent or the value differs.
(`_hash_file` never raises, so the loop's `except` branch is dead.) -/
def scanStep (acc : List String × List (String × String)) (f : FSFile) :
    List String × List (String × String) :=
  if scanIgnored f.parts then acc
  else
    let h := hashFile f
    let rel := relPath f
    match alookup acc.2 rel with
    | some old => if old ≠ h then (acc.1 ++ [rel], dictInsert acc.2 rel h) else acc
    | none => (acc.1 ++ [rel], dictInsert acc.2 rel h)

/-- `SmartOrchestrator.get_changed_files`: fast negative path when the
root directory's mtime has not advanced past the recorded scan mtime
(returns the empty set, touching neither cache); otherwise records the new
scan mtime and walks the tree.  Returns the changed files (as relative
paths) together with the updated scan state. -/
def getChangedFiles (fs : FSTree) (st : ScanState) : List String × ScanState :=
  if fs.rootMtime ≤ st.lastScanMtime then ([], st)
  else
    let r := fs.files.foldl scanStep ([], st.hashes)
    (r.1, ⟨r.2, fs.rootMtime⟩)

/-- The skip tests of `get_project_size` (note: no `__pycache__` test
there, unlike `get_changed_files`). -/
def sizeIgnored (parts : List String) : Bool :=
  (parts.any (fun part => startsWithDot part)
      && !parts.any (fun part => part == ".claude"))
    || parts.contains "node_modules"

/-- `file_count` of `SmartOrchestrator.get_project_size`. -/
def projectFileCount (fs : FSTree) : Nat :=
  (fs.files.filter (fun f => !sizeIgnored f.parts)).length

/-- `SmartOrchestrator.get_adaptive_timeout`: 60 below 100 files, 120
below 500, else 180 (`TIMEOUT_SMALL`/`TIMEOUT_MEDIUM`/`TIMEOUT_LARGE`). -/
def getAdaptiveTimeout (fs : FSTree) : Nat :=
  if projectFileCount fs < 100 then 60
  else if projectFileCount fs < 500 then 120
  else 180

/-! ## Embedding of `agent_lock.py`

`fcntl.flock(fd, LOCK_EX | LOCK_NB)` is modelled as an exclusive lock slot
per lock file: the flock succeeds iff no other file descriptor currently
holds the file (the kernel-held state survives across processes, which is
what makes the lock work between independently launched agents).  Opening
the lock file with `open(..., 'w')` always succeeds and allocates a fresh
descriptor; it does not touch the flock state, so an acquisition is
modelled as one atomic transition whose only shared effect is the flock
step. -/

/-- The kernel flock state of one lock file: the descriptor holding the
exclusive lock, if any. -/
structure FlockState where
  holder : Option Nat
deriving DecidableEq

/-- The in-process handle state of one `AgentLock` (`self.fd`). -/
structure AgentHandle where
  fd : Option Nat
deriving DecidableEq

/-- `AgentLock.acquire` with `timeout == 0` (non-blocking): open the lock
file (fresh descriptor `fdNew`), `flock(LOCK_EX | LOCK_NB)`; on success
write pid/timestamp and return `True`; on `BlockingIOError` close the
descriptor and return `False`. -/
def acquireNB (sys : FlockState) (fdNew : Nat) : FlockState × AgentHandle × Bool :=
  match sys.holder with
  | none => (⟨some fdNew⟩, ⟨some fdNew⟩, true)
  | some h =>
      if h = fdNew then (sys, ⟨some fdNew⟩, true)
      else (sys, ⟨none⟩, false)

/-- `AgentLock.release`: with a live descriptor, `flock(LOCK_UN)` (a
no-op unless this descriptor is the holder), close it and unlink the lock
file; with no descriptor, do nothing. -/
def releaseLock (sys : FlockState) (a : AgentHandle) : FlockState × AgentHandle :=
  match a.fd with
  | none => (sys, a)
  | some fd => (⟨if sys.holder = some fd then none else sys.holder⟩, ⟨none⟩)

/-- One on-disk lock record as `cleanup_stale_locks` sees it: whether a
live process holds its flock (the outcome of the non-blocking probe), and
the parsed `pid`/`timestamp` content — `none` when the file has fewer
than two lines or an unparsable timestamp line. -/
structure LockRecord where
  held : Bool
  content : Option (Nat × Int)
deriving DecidableEq

/-- The per-file decision of `cleanup_stale_locks`: a record is unlinked
iff its non-blocking probe succeeds (no live holder), its content parses,
and `now - timestamp > maxAge`.  A held record raises `BlockingIOError`
and is left alone. -/
def reclaimDecision (maxAge now : Int) (r : LockRecord) : Bool :=
  if r.held then false
  else
    match r.content with
    | none => false
    | some pt => decide (now - pt.2 > maxAge)

/-- `cleanup_stale_locks(max_age_seconds)` over the records of the lock
directory: returns the records that survive the scan. -/
def cleanupStaleLocks (maxAge now : Int) (records : List (String × LockRecord)) :
    List (String × LockRecord) :=
  records.filter (fun nr => !reclaimDecision maxAge now nr.2)

example :
    hashFile ⟨["a.txt"], true, true, 10, 3, "h1"⟩ = "h1" := by decide
example :
    hashFile ⟨["a.bin"], true, true, 2000000, 3, "h1"⟩ = "2000000_3" := by decide
example :
    hashFile ⟨["a.txt"], true, false, 10, 3, "h1"⟩ = "error" := by decide
example :
    (getChangedFiles ⟨5, [⟨["a.txt"], true, true, 10, 3, "h1"⟩]⟩
      ⟨[("a.txt", "h0")], 0⟩).1 = ["a.txt"] := by decide
example :
    (getChangedFiles ⟨5, [⟨["a.txt"], true, true, 10, 3, "h1"⟩]⟩
      ⟨[("a.txt", "h0")], 5⟩).1 = [] := by decide

/-! ## Lemmas about the generic helpers -/

theorem alookup_eq_none_of_forall {α : Type} {l : List (String × α)} {k : String}
    (h : ∀ p ∈ l, p.1 ≠ k) : alookup l k = none := by
  induction l with
  | nil => rfl
  | cons p rest ih =>
      obtain ⟨k', v⟩ := p
      have hk : k' ≠ k := h (k', v) (List.mem_cons_self _ _)
      simp only [alookup, beq_eq_false_iff_ne.mpr hk, if_false]
      exact ih (fun q hq => h q (List.mem_cons_of_mem _ hq))

theorem mem_of_alookup_some {α : Type} {l : List (String × α)} {k : String} {v : α}
    (h : alookup l k = some v) : (k, v) ∈ l := by
  induction l with
  | nil => simp [alookup] at h
  | cons p rest ih =>
      obtain ⟨k', v'⟩ := p
      by_cases hk : k' = k
      · subst hk
        simp only [alookup, beq_self_eq_true, if_true, Option.some.injEq] at h
        subst h; exact List.mem_cons_self _ _
      · simp only [alookup, beq_eq_false_iff_ne.mpr hk, if_false] at h
        exact List.mem_cons_of_mem _ (ih h)

theorem alookup_of_mem_nodup {α : Type} {l : List (String × α)}
    (hnd : (l.map Prod.fst).Nodup) {k : String} {v : α} (h : (k, v) ∈ l) :
    alookup l k = some v := by
  induction l with
  | nil => simp at h
  | cons p rest ih =>
      obtain ⟨k', v'⟩ := p
      simp only [List.map_cons, List.nodup_cons] at hnd
      rcases List.mem_cons.mp h with heq | hmem
      · obtain ⟨hk, hv⟩ := Prod.mk.injEq .. ▸ heq
        subst hk; subst hv
        simp [alookup]
      · have hk : k' ≠ k := by
          intro hcontra
          subst hcontra
          exact hnd.1 (List.mem_map.mpr ⟨(k', v), hmem, rfl⟩)
        simp only [alookup, beq_eq_false_iff_ne.mpr hk, if_false]
        exact ih hnd.2 hmem

theorem mem_dedupFirstAux {x : String} :
    ∀ (l seen : List String), x ∈ dedupFirstAux seen l ↔ x ∈ l ∧ x ∉ seen := by
  intro l
  induction l with
  | nil => intro seen; simp [dedupFirstAux]
  | cons y ys ih =>
      intro seen
      by_cases hy : y ∈ seen
      · simp only [dedupFirstAux, if_pos hy, ih]
        constructor
        · rintro ⟨hx, hns⟩
          exact ⟨List.mem_cons_of_mem _ hx, hns⟩
        · rintro ⟨hx, hns⟩
          rcases List.mem_cons.mp hx with rfl | hx
          · exact absurd hy hns
          · exact ⟨hx, hns⟩
      · simp only [dedupFirstAux, if_neg hy, List.mem_cons, ih]
        constructor
        · rintro (rfl | ⟨hx, hns⟩)
          · exact ⟨Or.inl rfl, hy⟩
          · exact ⟨Or.inr hx, fun hc => hns (Or.inr hc)⟩
        · rintro ⟨rfl | hx, hns⟩
          · exact Or.inl rfl
          · by_cases hxy : x = y
            · exact Or.inl hxy
            · refine Or.inr ⟨hx, fun hc => ?_⟩
              rcases hc with h | h
              · exact hxy h
              · exact hns h

theorem mem_dedupFirst {x : String} {l : List String} :
    x ∈ dedupFirst l ↔ x ∈ l := by
  simp [dedupFirst, mem_dedupFirstAux]

theorem mem_callIntersection {x : String} {defNames calls : List String} :
    x ∈ callIntersection defNames calls ↔ x ∈ calls ∧ defNames.contains x := by
  simp [callIntersection, mem_dedupFirst, List.mem_filter]

/-! ## Lemmas about `impactOf` -/

theorem ite_none_some_eq {α : Type} {c : Prop} [Decidable c] {y x : α}
    (h : (if c then none else some y) = some x) : x = y := by
  by_cases hc : c
  · rw [if_pos hc] at h
    exact absurd h (by simp)
  · rw [if_neg hc] at h
    exact (Option.some_inj.mp h).symm

theorem impactOf_key {cf b : String} {dn sn : List String} {pd : String × GraphEntry}
    {x : String × Impact} (h : impactOf cf b dn sn pd = some x) :
    x.1 = pd.1 ∧ pd.1 ≠ cf := by
  by_cases hk : (pd.1 == cf) = true
  · rw [impactOf, if_pos hk] at h
    exact absurd h (by simp)
  · rw [impactOf, if_neg hk] at h
    simp only at h
    have hx := ite_none_some_eq h
    exact ⟨by rw [hx], fun hc => hk (beq_iff_eq.mpr hc)⟩

/-- Claim C10: `find_impacted_files(changedPath)` never reports the
changed file itself as impacted, for every graph state and every analysis
result of the changed file (the loop skips the entry whose key equals the
changed path, and every emitted key is a graph key). -/
theorem findImpactedFiles_never_self (g : DepGraph) (changedFile : String)
    (analyzed : GraphEntry) :
    alookup (findImpactedFiles g changedFile analyzed) changedFile = none := by
  apply alookup_eq_none_of_forall
  intro p hp
  simp only [findImpactedFiles] at hp
  rcases List.mem_filterMap.mp hp with ⟨q, _, hFq⟩
  have hkey := impactOf_key hFq
  rw [hkey.1]
  exact hkey.2

/-! ## Claim C5: mutual exclusion of the named agent lock -/

/-- Claim C5: from a state with no holder, two non-blocking `acquire`
calls on the same worker name (modelled at the atomicity of the `flock`
step, in either interleaving order) yield exactly one success and one
failure, and after `release` of the held lock a subsequent `acquire`
succeeds. -/
theorem agentLock_mutual_exclusion (s : FlockState) (fd1 fd2 : Nat)
    (hfree : s.holder = none) (hne : fd1 ≠ fd2) :
    (((acquireNB s fd1).2.2 = true ∧
        (acquireNB (acquireNB s fd1).1 fd2).2.2 = false) ∧
      ((acquireNB s fd2).2.2 = true ∧
        (acquireNB (acquireNB s fd2).1 fd1).2.2 = false)) ∧
    (acquireNB
        (releaseLock (acquireNB s fd1).1 (acquireNB s fd1).2.1).1 fd2).2.2
      = true := by
  obtain ⟨h⟩ := s
  cases hfree
  simp [acquireNB, releaseLock, hne, Ne.symm hne]

/-- Witness for `agentLock_mutual_exclusion` at a concrete state. -/
theorem agentLock_mutual_exclusion_witness :
    (((acquireNB ⟨none⟩ 1).2.2 = true ∧
        (acquireNB (acquireNB ⟨none⟩ 1).1 2).2.2 = false) ∧
      ((acquireNB ⟨none⟩ 2).2.2 = true ∧
        (acquireNB (acquireNB ⟨none⟩ 2).1 1).2.2 = false)) ∧
    (acquireNB
        (releaseLock (acquireNB ⟨none⟩ 1).1 (acquireNB ⟨none⟩ 1).2.1).1 2).2.2
      = true :=
  agentLock_mutual_exclusion ⟨none⟩ 1 2 rfl (by decide)

/-! ## Claim C6: stale-lock reclamation -/

/-- Claim C6: `cleanup_stale_locks(maxAge)` keeps exactly the records
that are not (unheld with a parsed age exceeding `maxAge`); in
particular a record whose non-blocking probe fails (a live holder) is
never deleted, and an unheld record whose recorded age is at most
`maxAge` is kept. -/
theorem cleanupStaleLocks_exact (maxAge now : Int)
    (records : List (String × LockRecord)) :
    (∀ n r, (n, r) ∈ cleanupStaleLocks maxAge now records ↔
        ((n, r) ∈ records ∧
          ¬(r.held = false ∧
            ∃ pid ts, r.content = some (pid, ts) ∧ now - ts > maxAge))) ∧
    (∀ n r, (n, r) ∈ records → r.held = true →
        (n, r) ∈ cleanupStaleLocks maxAge now records) ∧
    (∀ n r pid ts, (n, r) ∈ records → r.content = some (pid, ts) →
        now - ts ≤ maxAge → (n, r) ∈ cleanupStaleLocks maxAge now records) := by
  have hdec : ∀ r : LockRecord,
      reclaimDecision maxAge now r = true ↔
        (r.held = false ∧ ∃ pid ts, r.content = some (pid, ts) ∧ now - ts > maxAge) := by
    intro r
    obtain ⟨held, content⟩ := r
    cases held
    · cases content with
      | none => simp [reclaimDecision]
      | some pt =>
          obtain ⟨pid, ts⟩ := pt
          simp only [reclaimDecision, if_false, Bool.false_eq_true,
            decide_eq_true_eq, Option.some.injEq, Prod.mk.injEq, true_and]
          constructor
          · intro hlt; exact ⟨pid, ts, ⟨rfl, rfl⟩, hlt⟩
          · rintro ⟨p, t, ⟨rfl, rfl⟩, hlt⟩; exact hlt
    · simp [reclaimDecision]
  refine ⟨fun n r => ?_, fun n r hm hheld => ?_, fun n r pid ts hm hc hage => ?_⟩
  · rw [cleanupStaleLocks, List.mem_filter]
    simp only [Bool.not_eq_true', ← Bool.not_eq_true, hdec]
  · rw [cleanupStaleLocks, List.mem_filter]
    refine ⟨hm, ?_⟩
    simp [reclaimDecision, hheld]
  · rw [cleanupStaleLocks, List.mem_filter]
    refine ⟨hm, ?_⟩
    simp only [Bool.not_eq_true', ← Bool.not_eq_true, hdec]
    rintro ⟨-, pid', ts', hc', hage'⟩
    rw [hc] at hc'
    simp only [Option.some.injEq, Prod.mk.injEq] at hc'
    obtain ⟨rfl, rfl⟩ := hc'
    omega

/-- Witness for `cleanupStaleLocks_exact`: a held record (even an old
one) survives reclamation. -/
theorem cleanupStaleLocks_exact_witness :
    ("worker", (⟨true, some (7, 0)⟩ : LockRecord)) ∈
      cleanupStaleLocks 600 100000 [("worker", ⟨true, some (7, 0)⟩)] :=
  (cleanupStaleLocks_exact 600 100000 _).2.1 "worker" ⟨true, some (7, 0)⟩
    (by simp) rfl

/-! ## Claim C9: adaptive timeout monotonicity -/

/-- The three timeout tiers are monotone in the file count. -/
theorem adaptiveTimeout_tier_mono {a b : Nat} (h : a ≤ b) :
    (if a < 100 then 60 else if a < 500 then 120 else 180 : Nat)
      ≤ (if b < 100 then 60 else if b < 500 then 120 else 180 : Nat) := by
  split_ifs <;> omega

/-- `get_project_size` inspects only each file's path components, so the
file count is a function of the tree of relative paths alone. -/
theorem projectFileCount_eq_parts (fs : FSTree) :
    projectFileCount fs
      = ((fs.files.map FSFile.parts).filter (fun p => !sizeIgnored p)).length := by
  unfold projectFileCount
  rw [List.filter_map, List.length_map]
  rfl

/-- Claim C9: the per-worker timeout budget is tiered monotonically in the
volume of change.  First conjunct: a run over a state whose path tree
extends the first state's (the same files plus possibly more, e.g.
freshly created changed files — the shared paths may carry different
contents, sizes or mtimes) gets a per-worker timeout at least as large.
Second conjunct: `get_adaptive_timeout` reads only the path tree, so a
state differing solely in file contents (more content-modified changed
files, different hashes, sizes, mtimes or root mtime, same paths) gets
exactly the same timeout. -/
theorem getAdaptiveTimeout_mono :
    (∀ fs₁ fs₂ : FSTree,
      (fs₁.files.map FSFile.parts).Sublist (fs₂.files.map FSFile.parts) →
      getAdaptiveTimeout fs₁ ≤ getAdaptiveTimeout fs₂) ∧
    (∀ fs₁ fs₂ : FSTree,
      fs₁.files.map FSFile.parts = fs₂.files.map FSFile.parts →
      getAdaptiveTimeout fs₁ = getAdaptiveTimeout fs₂) := by
  constructor
  · intro fs₁ fs₂ hsub
    have hcount : projectFileCount fs₁ ≤ projectFileCount fs₂ := by
      rw [projectFileCount_eq_parts, projectFileCount_eq_parts]
      exact (hsub.filter _).length_le
    unfold getAdaptiveTimeout
    exact adaptiveTimeout_tier_mono hcount
  · intro fs₁ fs₂ heq
    have hcount : projectFileCount fs₁ = projectFileCount fs₂ := by
      rw [projectFileCount_eq_parts, projectFileCount_eq_parts, heq]
    unfold getAdaptiveTimeout
    rw [hcount]

/-- Witness for `getAdaptiveTimeout_mono` at concrete trees: the second
tree modifies the content, size and mtime of the shared file `a.py` and
adds a new file; the third differs from the first only in `a.py`'s
content and the root mtime. -/
theorem getAdaptiveTimeout_mono_witness :
    getAdaptiveTimeout ⟨0, [⟨["a.py"], true, true, 5, 1, "h"⟩]⟩
      ≤ getAdaptiveTimeout ⟨9, [⟨["a.py"], true, true, 7, 8, "hmod"⟩,
        ⟨["b.py"], true, true, 6, 9, "h2"⟩]⟩ ∧
    getAdaptiveTimeout ⟨0, [⟨["a.py"], true, true, 5, 1, "h"⟩]⟩
      = getAdaptiveTimeout ⟨4, [⟨["a.py"], true, true, 5, 2, "hmod"⟩]⟩ :=
  ⟨getAdaptiveTimeout_mono.1 _ _ (by decide),
   getAdaptiveTimeout_mono.2 _ _ (by decide)⟩

/-! ## Lemmas about `pyDict` and signature changes -/

theorem keys_dictInsert_mem {α : Type} (d : List (String × α)) (k : String) (v : α)
    (h : d.any (fun p => p.1 == k) = true) :
    (dictInsert d k v).map Prod.fst = d.map Prod.fst := by
  rw [dictInsert, if_pos h, List.map_map]
  apply List.map_congr_left
  intro p _
  simp only [Function.comp_apply]
  by_cases hp : (p.1 == k) = true
  · rw [if_pos hp]
    exact (beq_iff_eq.mp hp).symm
  · rw [if_neg hp]

theorem keys_dictInsert_new {α : Type} (d : List (String × α)) (k : String) (v : α)
    (h : d.any (fun p => p.1 == k) = false) :
    (dictInsert d k v).map Prod.fst = d.map Prod.fst ++ [k] := by
  rw [dictInsert, if_neg (by simp [h]), List.map_append]
  rfl

theorem nodup_keys_dictInsert {α : Type} {d : List (String × α)} (k : String) (v : α)
    (hd : (d.map Prod.fst).Nodup) : ((dictInsert d k v).map Prod.fst).Nodup := by
  cases h : d.any (fun p => p.1 == k) with
  | true => rw [keys_dictInsert_mem d k v h]; exact hd
  | false =>
      rw [keys_dictInsert_new d k v h]
      have hk : k ∉ d.map Prod.fst := by
        intro hc
        rcases List.mem_map.mp hc with ⟨p, hp, hpk⟩
        have := List.any_eq_false.mp h p hp
        rw [hpk] at this
        simp at this
      rw [List.nodup_append]
      exact ⟨hd, List.nodup_singleton k, by
        intro a ha hb
        rw [List.mem_singleton.mp hb] at ha
        exact hk ha⟩

theorem pyDict_nodup_keys {α : Type} (ps : List (String × α)) :
    ((pyDict ps).map Prod.fst).Nodup := by
  suffices h : ∀ (qs : List (String × α)) (d : List (String × α)),
      (d.map Prod.fst).Nodup →
      ((qs.foldl (fun d p => dictInsert d p.1 p.2) d).map Prod.fst).Nodup by
    exact h ps [] (by simp)
  intro qs
  induction qs with
  | nil => intro d hd; exact hd
  | cons p rest ih =>
      intro d hd
      exact ih _ (nodup_keys_dictInsert p.1 p.2 hd)

/-- The loop body of `detect_signature_changes` for one name of the new
dict. -/
def sigChangeEmit (oldSigs : List (String × String)) (p : String × String) :
    Option SigChange :=
  match alookup oldSigs p.1 with
  | some oldSig => if oldSig ≠ p.2 then some ⟨p.1, oldSig, p.2⟩ else none
  | none => none

theorem sigChangeEmit_of_some {os : List (String × String)} {k vnew vold : String}
    (h : alookup os k = some vold) (hne : vold ≠ vnew) :
    sigChangeEmit os (k, vnew) = some ⟨k, vold, vnew⟩ := by
  unfold sigChangeEmit
  rw [h]
  simp [hne]

theorem sigChangeEmit_some {os : List (String × String)} {p : String × String}
    {c : SigChange} (h : sigChangeEmit os p = some c) :
    c.name = p.1 ∧ alookup os p.1 = some c.old ∧ c.new = p.2 ∧ c.old ≠ c.new := by
  unfold sigChangeEmit at h
  split at h
  next oldSig heq =>
    split at h
    next hne =>
      obtain rfl := Option.some_inj.mp h
      exact ⟨rfl, heq, rfl, hne⟩
    next hne => exact absurd h (by simp)
  next heq => exact absurd h (by simp)

theorem signatureChangesCore_eq_filterMap (oldDefs newDefs : List DefRecord) :
    signatureChangesCore oldDefs newDefs
      = (sigDict newDefs).filterMap (sigChangeEmit (sigDict oldDefs)) := rfl

theorem mem_signatureChangesCore {oldDefs newDefs : List DefRecord} {c : SigChange} :
    c ∈ signatureChangesCore oldDefs newDefs ↔
      alookup (sigDict newDefs) c.name = some c.new ∧
      alookup (sigDict oldDefs) c.name = some c.old ∧ c.old ≠ c.new := by
  rw [signatureChangesCore_eq_filterMap, List.mem_filterMap]
  constructor
  · rintro ⟨p, hp, hemit⟩
    obtain ⟨hname, hold, hnew, hne⟩ := sigChangeEmit_some hemit
    refine ⟨?_, ?_, hne⟩
    · rw [hname, hnew]
      have hp' : (p.1, p.2) ∈ sigDict newDefs := by
        obtain ⟨p1, p2⟩ := p
        exact hp
      exact alookup_of_mem_nodup (pyDict_nodup_keys _) hp'
    · rw [hname]
      exact hold
  · obtain ⟨nm, od, nw⟩ := c
    rintro ⟨hnew, hold, hne⟩
    exact ⟨(nm, nw), mem_of_alookup_some hnew, sigChangeEmit_of_some hold hne⟩

theorem names_nodup_filterMap_emit (os : List (String × String)) :
    ∀ (d : List (String × String)), (d.map Prod.fst).Nodup →
      ((d.filterMap (sigChangeEmit os)).map (fun c => c.name)).Nodup := by
  intro d
  induction d with
  | nil => intro _; simp
  | cons p rest ih =>
      intro hd
      simp only [List.map_cons, List.nodup_cons] at hd
      cases hemit : sigChangeEmit os p with
      | none => rw [List.filterMap_cons_none hemit]; exact ih hd.2
      | some c =>
          rw [List.filterMap_cons_some hemit]
          simp only [List.map_cons, List.nodup_cons]
          refine ⟨?_, ih hd.2⟩
          intro hc
          rcases List.mem_map.mp hc with ⟨c', hc', hcname⟩
          rcases List.mem_filterMap.mp hc' with ⟨q, hq, hqemit⟩
          have h1 := (sigChangeEmit_some hqemit).1
          have h2 := (sigChangeEmit_some hemit).1
          apply hd.1
          rw [← h2, ← hcname, h1]
          exact List.mem_map.mpr ⟨q, hq, rfl⟩

theorem signatureChangesCore_names_nodup (oldDefs newDefs : List DefRecord) :
    ((signatureChangesCore oldDefs newDefs).map (fun c => c.name)).Nodup := by
  rw [signatureChangesCore_eq_filterMap]
  exact names_nodup_filterMap_emit _ _ (pyDict_nodup_keys _)

theorem filter_name_single {l : List SigChange} {c : SigChange}
    (hnd : (l.map (fun x => x.name)).Nodup) (hm : c ∈ l)
    (huni : ∀ c' ∈ l, c'.name = c.name → c' = c) :
    l.filter (fun x => x.name == c.name) = [c] := by
  induction l with
  | nil => simp at hm
  | cons a rest ih =>
      simp only [List.map_cons, List.nodup_cons] at hnd
      rcases List.mem_cons.mp hm with rfl | hmem
      · rw [List.filter_cons_of_pos (by simp)]
        have hrest : rest.filter (fun x => x.name == c.name) = [] := by
          rw [List.filter_eq_nil_iff]
          intro x hx
          simp only [beq_iff_eq]
          intro hxc
          apply hnd.1
          rw [← hxc]
          exact List.mem_map.mpr ⟨x, hx, rfl⟩
        rw [hrest]
      · have hane : a.name ≠ c.name := by
          intro hac
          apply hnd.1
          rw [hac]
          exact List.mem_map.mpr ⟨c, hmem, rfl⟩
        rw [List.filter_cons_of_neg (by simp [hane])]
        exact ih hnd.2 hmem (fun c' hc' => huni c' (List.mem_cons_of_mem _ hc'))

/-! ## Claim C2: signature-change detection -/

/-- Claim C2 (amended): when the previous graph entry's signature dict
maps `f` to `f(a)` and the new extraction's signature dict maps `f` to
`f(a, b)`, the second analysis's signature-change list contains exactly
one entry named `f`, and it is `{f, f(a), f(a, b)}`; a name present only
in the old entry or only in the new extraction never produces an entry.
(Other persisting names whose signature text also differs produce their
own entries, so the whole list need not be a singleton.) -/
theorem detectSignatureChanges_per_name (g : DepGraph) (fp : String)
    (oldData : GraphEntry) (parsedDefs : List DefRecord)
    (hg : alookup g fp = some oldData)
    (hold : alookup (sigDict oldData.definitions) "f" = some "f(a)")
    (hnew : alookup (sigDict parsedDefs) "f" = some "f(a, b)") :
    (detectSignatureChanges g fp parsedDefs).filter (fun c => c.name == "f")
        = [⟨"f", "f(a)", "f(a, b)"⟩] ∧
    (∀ n, alookup (sigDict oldData.definitions) n = none →
      (detectSignatureChanges g fp parsedDefs).filter (fun c => c.name == n) = []) ∧
    (∀ n, alookup (sigDict parsedDefs) n = none →
      (detectSignatureChanges g fp parsedDefs).filter (fun c => c.name == n) = []) := by
  have hdet : detectSignatureChanges g fp parsedDefs
      = signatureChangesCore oldData.definitions parsedDefs := by
    simp [detectSignatureChanges, hg]
  rw [hdet]
  have hc : (⟨"f", "f(a)", "f(a, b)"⟩ : SigChange)
      ∈ signatureChangesCore oldData.definitions parsedDefs :=
    mem_signatureChangesCore.mpr ⟨hnew, hold, by decide⟩
  have huni : ∀ c' ∈ signatureChangesCore oldData.definitions parsedDefs,
      c'.name = "f" → c' = ⟨"f", "f(a)", "f(a, b)"⟩ := by
    rintro ⟨nm, od, nw⟩ hc' hn
    simp only at hn
    subst hn
    obtain ⟨hn', ho', _⟩ := mem_signatureChangesCore.mp hc'
    simp only at hn' ho'
    have h1 : nw = "f(a, b)" := Option.some_inj.mp (hn'.symm.trans hnew)
    have h2 : od = "f(a)" := Option.some_inj.mp (ho'.symm.trans hold)
    rw [h1, h2]
  refine ⟨filter_name_single (signatureChangesCore_names_nodup _ _) hc huni, ?_, ?_⟩
  · intro n hnone
    rw [List.filter_eq_nil_iff]
    intro c hcmem
    simp only [beq_iff_eq]
    intro hcn
    obtain ⟨_, ho, _⟩ := mem_signatureChangesCore.mp hcmem
    rw [hcn, hnone] at ho
    exact absurd ho (by simp)
  · intro n hnone
    rw [List.filter_eq_nil_iff]
    intro c hcmem
    simp only [beq_iff_eq]
    intro hcn
    obtain ⟨hnw, _, _⟩ := mem_signatureChangesCore.mp hcmem
    rw [hcn, hnone] at hnw
    exact absurd hnw (by simp)

/-- Concrete single-definition state for the witness of
`detectSignatureChanges_per_name`. -/
def sigWitGraphEntry : GraphEntry :=
  ⟨[], [⟨"f", "function", some "f(a)", 1⟩], [], "python", []⟩

/-- See `sigWitGraphEntry`. -/
def sigWitGraph : DepGraph := [("m.py", sigWitGraphEntry)]

/-- See `sigWitGraphEntry`. -/
def sigWitNewDefs : List DefRecord := [⟨"f", "function", some "f(a, b)", 1⟩]

/-- Witness for `detectSignatureChanges_per_name` on a one-definition
file. -/
theorem detectSignatureChanges_per_name_witness :
    (detectSignatureChanges sigWitGraph "m.py" sigWitNewDefs).filter
        (fun c => c.name == "f") = [⟨"f", "f(a)", "f(a, b)"⟩] ∧
    (∀ n, alookup (sigDict sigWitGraphEntry.definitions) n = none →
      (detectSignatureChanges sigWitGraph "m.py" sigWitNewDefs).filter
        (fun c => c.name == n) = []) ∧
    (∀ n, alookup (sigDict sigWitNewDefs) n = none →
      (detectSignatureChanges sigWitGraph "m.py" sigWitNewDefs).filter
        (fun c => c.name == n) = []) :=
  detectSignatureChanges_per_name sigWitGraph "m.py" sigWitGraphEntry
    sigWitNewDefs (by decide) (by decide) (by decide)

/-- Previous entry for the counterexample to claim C2 as stated: two
definitions, both with changed signatures. -/
def c2OldEntry : GraphEntry :=
  ⟨[], [⟨"f", "function", some "f(a)", 1⟩, ⟨"g", "function", some "g(x)", 3⟩],
   [], "python", []⟩

/-- See `c2OldEntry`. -/
def c2Graph : DepGraph := [("m.py", c2OldEntry)]

/-- See `c2OldEntry`. -/
def c2NewDefs : List DefRecord :=
  [⟨"f", "function", some "f(a, b)", 1⟩, ⟨"g", "function", some "g(y)", 3⟩]

/-- Counterexample to claim C2 as stated: a state satisfying the claim's
precondition (the previous entry defines `f` with text `f(a)`, the new
extraction defines `f` with text `f(a, b)`) whose signature-change list
has two entries, not exactly one — the second definition `g` also
persisted with a different signature. -/
theorem detectSignatureChanges_not_single :
    alookup (sigDict c2OldEntry.definitions) "f" = some "f(a)" ∧
    alookup (sigDict c2NewDefs) "f" = some "f(a, b)" ∧
    (detectSignatureChanges c2Graph "m.py" c2NewDefs).length = 2 := by decide

/-! ## Claim C1: call-based impact reasons -/

theorem contains_iff {l : List String} {x : String} :
    l.contains x = true ↔ x ∈ l := by
  simp [List.contains]

theorem isEmpty_false_of_ne_nil {α : Type} {l : List α} (h : l ≠ []) :
    l.isEmpty = false := by
  cases l with
  | nil => exact absurd rfl h
  | cons a t => rfl

theorem pyIn_mono_append_right {pat : String} (a b : String)
    (h : pyIn pat a = true) : pyIn pat (a ++ b) = true := by
  unfold pyIn at h ⊢
  rw [decide_eq_true_eq] at h ⊢
  have hab : (a ++ b).toList = a.toList ++ b.toList := String.data_append a b
  rw [hab]
  exact h.trans (List.prefix_append _ _).isInfix

theorem pyIn_modified_calls_modified (s : String) :
    pyIn "modified" ("calls_modified: " ++ s) = true :=
  pyIn_mono_append_right _ s (by decide)

theorem severityOf_eq_high {reasons : List String} {r : String} (hr : r ∈ reasons)
    (hmod : pyIn "modified" r = true) : severityOf reasons = "high" := by
  unfold severityOf
  rw [if_pos (List.any_eq_true.mpr ⟨r, hr, hmod⟩)]

theorem severityOf_eq_medium {reasons : List String}
    (h : ∀ r ∈ reasons, pyIn "modified" r = false) :
    severityOf reasons = "medium" := by
  unfold severityOf
  rw [if_neg]
  intro hc
  rcases List.any_eq_true.mp hc with ⟨r, hr, hmod⟩
  rw [h r hr] at hmod
  exact absurd hmod (by simp)

theorem callReasonsOf_calls {dn sn : List String} {e : GraphEntry}
    (hne : callIntersection dn e.calls ≠ [])
    (hmod : (callIntersection dn e.calls).filter (fun c => sn.contains c) = []) :
    callReasonsOf dn sn e
      = ["calls: " ++ joinSep ", " (callIntersection dn e.calls)] := by
  unfold callReasonsOf
  simp only [isEmpty_false_of_ne_nil hne, hmod]
  simp

theorem callReasonsOf_calls_modified {dn sn : List String} {e : GraphEntry}
    (hmodne : (callIntersection dn e.calls).filter (fun c => sn.contains c) ≠ []) :
    callReasonsOf dn sn e
      = ["calls_modified: " ++ joinSep ", "
          ((callIntersection dn e.calls).filter (fun c => sn.contains c))] := by
  have hne : callIntersection dn e.calls ≠ [] := by
    intro h
    rw [h] at hmodne
    exact hmodne rfl
  unfold callReasonsOf
  simp only [isEmpty_false_of_ne_nil hne, isEmpty_false_of_ne_nil hmodne]
  simp

theorem reasonsOf_isEmpty_false {b : String} {dn sn : List String} {e : GraphEntry}
    {r : String} (hcr : callReasonsOf dn sn e = [r]) :
    (reasonsOf b dn sn e).isEmpty = false := by
  unfold reasonsOf
  rw [hcr]
  cases h : importReasonHit b e <;> simp [h]

theorem impactOf_some {cf b k : String} {e : GraphEntry} {dn sn : List String}
    {r : String} (hk : (k == cf) = false) (hcr : callReasonsOf dn sn e = [r]) :
    impactOf cf b dn sn (k, e)
      = some (k, ⟨reasonsOf b dn sn e, severityOf (reasonsOf b dn sn e)⟩) := by
  rw [impactOf, if_neg (by simp [hk])]
  simp only
  rw [if_neg (by rw [reasonsOf_isEmpty_false hcr]; simp)]

theorem alookup_filterMap_impactOf {g : DepGraph} {cf b : String}
    {dn sn : List String} (hnd : (g.map Prod.fst).Nodup) {k : String}
    {e : GraphEntry} {imp : Impact} (hm : (k, e) ∈ g)
    (hF : impactOf cf b dn sn (k, e) = some (k, imp)) :
    alookup (g.filterMap (impactOf cf b dn sn)) k = some imp := by
  induction g with
  | nil => simp at hm
  | cons p rest ih =>
      simp only [List.map_cons, List.nodup_cons] at hnd
      rcases List.mem_cons.mp hm with heq | hmem
      · obtain rfl := heq.symm
        rw [List.filterMap_cons_some hF]
        simp [alookup]
      · have hkne : p.1 ≠ k := by
          intro hc
          apply hnd.1
          rw [hc]
          exact List.mem_map.mpr ⟨(k, e), hmem, rfl⟩
        cases hFp : impactOf cf b dn sn p with
        | none =>
            rw [List.filterMap_cons_none hFp]
            exact ih hnd.2 hmem
        | some x =>
            rw [List.filterMap_cons_some hFp]
            have hx1 : x.1 = p.1 := (impactOf_key hFp).1
            obtain ⟨x1, x2⟩ := x
            simp only at hx1
            rw [alookup, if_neg (by rw [hx1]; simp [hkne])]
            exact ih hnd.2 hmem

/-- Claim C1 (amended): in a graph state where the changed file `A.py`
defines `helper` and `B.py` has `helper` among its call targets,
`find_impacted_files("A.py")` contains an entry for `B.py`; `helper`
belongs to the call-name intersection; when no intersecting name has a
changed signature the entry's reasons include the `calls:` reason listing
that intersection (hence naming `helper`), and its severity is `medium`
provided that reason text does not contain `modified` (a defined name
containing `modified` as a substring forces severity `high` even without
a signature change); when `helper` itself has a changed signature the
reasons include the `calls_modified:` reason, it names `helper`, and the
severity is `high`. -/
theorem findImpactedFiles_calls_reason (g : DepGraph)
    (eA eB analyzed : GraphEntry) (hnd : (g.map Prod.fst).Nodup)
    (hA : alookup g "A.py" = some eA) (hB : alookup g "B.py" = some eB)
    (hdef : "helper" ∈ changedDefNamesOf eA) (hcall : "helper" ∈ eB.calls) :
    ∃ imp : Impact,
      alookup (findImpactedFiles g "A.py" analyzed) "B.py" = some imp ∧
      "helper" ∈ callIntersection (changedDefNamesOf eA) eB.calls ∧
      ((callIntersection (changedDefNamesOf eA) eB.calls).filter
          (fun c => (sigNamesOf eA).contains c) = [] →
        ("calls: " ++ joinSep ", "
            (callIntersection (changedDefNamesOf eA) eB.calls)) ∈ imp.reasons ∧
        (pyIn "modified" ("calls: " ++ joinSep ", "
            (callIntersection (changedDefNamesOf eA) eB.calls)) = false →
          imp.severity = "medium")) ∧
      ("helper" ∈ sigNamesOf eA →
        ("calls_modified: " ++ joinSep ", "
            ((callIntersection (changedDefNamesOf eA) eB.calls).filter
              (fun c => (sigNamesOf eA).contains c))) ∈ imp.reasons ∧
        "helper" ∈ (callIntersection (changedDefNamesOf eA) eB.calls).filter
            (fun c => (sigNamesOf eA).contains c) ∧
        imp.severity = "high") := by
  have hfind : findImpactedFiles g "A.py" analyzed
      = g.filterMap (impactOf "A.py" (pyLower (pyStem "A.py"))
          (changedDefNamesOf eA) (sigNamesOf eA)) := by
    simp [findImpactedFiles, hA]
  have hinter : "helper" ∈ callIntersection (changedDefNamesOf eA) eB.calls :=
    mem_callIntersection.mpr ⟨hcall, contains_iff.mpr hdef⟩
  have hinterne : callIntersection (changedDefNamesOf eA) eB.calls ≠ [] :=
    List.ne_nil_of_mem hinter
  have hcr : ∃ r, callReasonsOf (changedDefNamesOf eA) (sigNamesOf eA) eB = [r] := by
    cases hmod : (callIntersection (changedDefNamesOf eA) eB.calls).filter
        (fun c => (sigNamesOf eA).contains c) with
    | nil => exact ⟨_, callReasonsOf_calls hinterne hmod⟩
    | cons a t =>
        exact ⟨_, callReasonsOf_calls_modified
          (by rw [hmod]; exact List.cons_ne_nil a t)⟩
  obtain ⟨r, hr⟩ := hcr
  have hk : (("B.py" : String) == "A.py") = false := by decide
  have hFB := impactOf_some (e := eB) (b := pyLower (pyStem "A.py")) hk hr
  refine ⟨⟨reasonsOf (pyLower (pyStem "A.py")) (changedDefNamesOf eA)
      (sigNamesOf eA) eB,
    severityOf (reasonsOf (pyLower (pyStem "A.py")) (changedDefNamesOf eA)
      (sigNamesOf eA) eB)⟩, ?_, hinter, ?_, ?_⟩
  · rw [hfind]
    exact alookup_filterMap_impactOf hnd (mem_of_alookup_some hB) hFB
  · intro hmod
    have hcalls := callReasonsOf_calls hinterne hmod
    constructor
    · show _ ∈ reasonsOf _ _ _ _
      unfold reasonsOf
      rw [hcalls]
      exact List.mem_append_right _ (List.mem_singleton.mpr rfl)
    · intro hnomod
      show severityOf _ = "medium"
      apply severityOf_eq_medium
      intro r' hr'
      unfold reasonsOf at hr'
      rw [hcalls] at hr'
      rcases List.mem_append.mp hr' with hl | hrr
      · cases himp : importReasonHit (pyLower (pyStem "A.py")) eB with
        | true =>
            rw [himp] at hl
            simp only [if_true, List.mem_singleton] at hl
            rw [hl]
            decide
        | false =>
            rw [himp] at hl
            simp at hl
      · rw [List.mem_singleton.mp hrr]
        exact hnomod
  · intro hsn
    have hhmod : "helper" ∈ (callIntersection (changedDefNamesOf eA) eB.calls).filter
        (fun c => (sigNamesOf eA).contains c) :=
      List.mem_filter.mpr ⟨hinter, contains_iff.mpr hsn⟩
    have hcm := callReasonsOf_calls_modified (List.ne_nil_of_mem hhmod)
    have hmem : ("calls_modified: " ++ joinSep ", "
        ((callIntersection (changedDefNamesOf eA) eB.calls).filter
          (fun c => (sigNamesOf eA).contains c)))
        ∈ reasonsOf (pyLower (pyStem "A.py")) (changedDefNamesOf eA)
            (sigNamesOf eA) eB := by
      unfold reasonsOf
      rw [hcm]
      exact List.mem_append_right _ (List.mem_singleton.mpr rfl)
    exact ⟨hmem, hhmod,
      severityOf_eq_high hmem (pyIn_modified_calls_modified _)⟩

/-- Changed-file entry for the witness of
`findImpactedFiles_calls_reason`: `helper`'s signature changed. -/
def c1WitEA : GraphEntry :=
  ⟨[], [⟨"helper", "function", some "helper(x, y)", 1⟩], [], "python",
   [⟨"helper", "helper(x)", "helper(x, y)"⟩]⟩

/-- See `c1WitEA`. -/
def c1WitEB : GraphEntry := ⟨[], [], ["helper"], "python", []⟩

/-- See `c1WitEA`. -/
def c1WitGraph : DepGraph := [("A.py", c1WitEA), ("B.py", c1WitEB)]

/-- Witness for `findImpactedFiles_calls_reason` at a concrete state. -/
theorem findImpactedFiles_calls_reason_witness :
    ∃ imp : Impact,
      alookup (findImpactedFiles c1WitGraph "A.py" emptyEntry) "B.py" = some imp ∧
      "helper" ∈ callIntersection (changedDefNamesOf c1WitEA) c1WitEB.calls ∧
      ((callIntersection (changedDefNamesOf c1WitEA) c1WitEB.calls).filter
          (fun c => (sigNamesOf c1WitEA).contains c) = [] →
        ("calls: " ++ joinSep ", "
            (callIntersection (changedDefNamesOf c1WitEA) c1WitEB.calls))
          ∈ imp.reasons ∧
        (pyIn "modified" ("calls: " ++ joinSep ", "
            (callIntersection (changedDefNamesOf c1WitEA) c1WitEB.calls)) = false →
          imp.severity = "medium")) ∧
      ("helper" ∈ sigNamesOf c1WitEA →
        ("calls_modified: " ++ joinSep ", "
            ((callIntersection (changedDefNamesOf c1WitEA) c1WitEB.calls).filter
              (fun c => (sigNamesOf c1WitEA).contains c))) ∈ imp.reasons ∧
        "helper" ∈ (callIntersection (changedDefNamesOf c1WitEA) c1WitEB.calls).filter
            (fun c => (sigNamesOf c1WitEA).contains c) ∧
        imp.severity = "high") :=
  findImpactedFiles_calls_reason c1WitGraph c1WitEA c1WitEB emptyEntry
    (by decide) (by decide) (by decide) (by decide) (by decide)

/-- Changed-file entry for the counterexample to claim C1 as stated:
`A.py` defines `helper` (unchanged signature) and `frob` (changed
signature). -/
def c1CexEA : GraphEntry :=
  ⟨[], [⟨"helper", "function", some "helper(x)", 1⟩,
        ⟨"frob", "function", some "frob(y, z)", 5⟩],
   [], "python", [⟨"frob", "frob(y)", "frob(y, z)"⟩]⟩

/-- See `c1CexEA`. -/
def c1CexEB : GraphEntry := ⟨[], [], ["helper", "frob"], "python", []⟩

/-- See `c1CexEA`. -/
def c1CexGraph : DepGraph := [("A.py", c1CexEA), ("B.py", c1CexEB)]

/-- Counterexample to claim C1 as stated: `A.py` defines `helper` with an
unchanged signature and `B.py` calls it, yet because the other called
name `frob` did have a signature change, `B.py`'s only reason is
`calls_modified: frob` — there is no `calls` reason naming `helper` and
the severity is `high`, not `medium`. -/
theorem findImpactedFiles_masked_calls :
    "helper" ∈ changedDefNamesOf c1CexEA ∧
    "helper" ∈ c1CexEB.calls ∧
    "helper" ∉ sigNamesOf c1CexEA ∧
    alookup (findImpactedFiles c1CexGraph "A.py" emptyEntry) "B.py"
      = some ⟨["calls_modified: frob"], "high"⟩ := by decide

/-! ## Claims C7 / C8: the change-detection hash cache -/

theorem alookup_map_update {α : Type} {d : List (String × α)} {k : String} {v : α}
    (hany : d.any (fun p => p.1 == k) = true) :
    alookup (d.map (fun p => if p.1 == k then (k, v) else p)) k = some v := by
  induction d with
  | nil => simp at hany
  | cons p rest ih =>
      by_cases hp : (p.1 == k) = true
      · simp only [List.map_cons, if_pos hp]
        simp [alookup]
      · simp only [List.map_cons, if_neg hp]
        obtain ⟨p1, p2⟩ := p
        simp only at hp
        rw [alookup, if_neg (by simp_all)]
        apply ih
        simp only [List.any_cons, hp, Bool.false_or] at hany
        exact hany

theorem alookup_append_not_found {α : Type} {d : List (String × α)} {k : String}
    (h : ∀ p ∈ d, (p.1 == k) = false) (tail : List (String × α)) :
    alookup (d ++ tail) k = alookup tail k := by
  induction d with
  | nil => rfl
  | cons p rest ih =>
      obtain ⟨p1, p2⟩ := p
      rw [List.cons_append, alookup,
        if_neg (by simpa using h (p1, p2) (List.mem_cons_self _ _)) ]
      exact ih (fun q hq => h q (List.mem_cons_of_mem _ hq))

theorem alookup_dictInsert_self {α : Type} (d : List (String × α)) (k : String)
    (v : α) : alookup (dictInsert d k v) k = some v := by
  unfold dictInsert
  cases hany : d.any (fun p => p.1 == k) with
  | true =>
      rw [if_pos rfl]
      exact alookup_map_update hany
  | false =>
      rw [if_neg (by simp)]
      rw [alookup_append_not_found
        (fun p hp => by simpa using List.any_eq_false.mp hany p hp) _]
      simp [alookup]

theorem alookup_map_update_ne {α : Type} (d : List (String × α)) (kNew : String)
    (v : α) {k : String} (hk : k ≠ kNew) :
    alookup (d.map (fun p => if p.1 == kNew then (kNew, v) else p)) k
      = alookup d k := by
  induction d with
  | nil => rfl
  | cons p rest ih =>
      obtain ⟨p1, p2⟩ := p
      by_cases hp : (p1 == kNew) = true
      · have hp1 : p1 = kNew := beq_iff_eq.mp hp
        simp only [List.map_cons, if_pos hp]
        rw [alookup, alookup, if_neg (by simp [Ne.symm hk]),
          if_neg (by rw [hp1]; simp [Ne.symm hk])]
        exact ih
      · simp only [List.map_cons, if_neg hp]
        rw [alookup, alookup]
        by_cases hp1k : (p1 == k) = true
        · rw [if_pos hp1k, if_pos hp1k]
        · rw [if_neg hp1k, if_neg hp1k]
          exact ih

theorem alookup_dictInsert_ne {α : Type} (d : List (String × α)) (kNew : String)
    (v : α) {k : String} (hk : k ≠ kNew) :
    alookup (dictInsert d kNew v) k = alookup d k := by
  unfold dictInsert
  split
  · exact alookup_map_update_ne d kNew v hk
  · rename_i hany
    clear hany
    induction d with
    | nil => simp [alookup, beq_eq_false_iff_ne.mpr (Ne.symm hk)]
    | cons p rest ih =>
        obtain ⟨p1, p2⟩ := p
        rw [List.cons_append, alookup, alookup]
        by_cases hp1k : (p1 == k) = true
        · rw [if_pos hp1k, if_pos hp1k]
        · rw [if_neg hp1k, if_neg hp1k]
          exact ih

theorem scanStep_other {acc : List String × List (String × String)} {f : FSFile}
    {k : String} (hk : k ≠ relPath f) :
    alookup (scanStep acc f).2 k = alookup acc.2 k := by
  unfold scanStep
  split
  · rfl
  · simp only
    split
    next old heq =>
      split
      · exact alookup_dictInsert_ne _ _ _ hk
      · rfl
    next heq => exact alookup_dictInsert_ne _ _ _ hk

theorem scanStep_self {acc : List String × List (String × String)} {f : FSFile}
    (hig : scanIgnored f.parts = false) :
    alookup (scanStep acc f).2 (relPath f) = some (hashFile f) := by
  unfold scanStep
  rw [if_neg (by simp [hig])]
  simp only
  split
  next old heq =>
    split
    next hne => exact alookup_dictInsert_self _ _ _
    next hne =>
      rw [heq, not_not.mp hne]
  next heq => exact alookup_dictInsert_self _ _ _

theorem scan_foldl_preserve (files : List FSFile)
    (st : List String × List (String × String)) (k : String)
    (hk : ∀ f ∈ files, relPath f ≠ k) :
    alookup (files.foldl scanStep st).2 k = alookup st.2 k := by
  induction files generalizing st with
  | nil => rfl
  | cons g rest ih =>
      rw [List.foldl_cons,
        ih _ (fun f hf => hk f (List.mem_cons_of_mem _ hf))]
      exact scanStep_other (Ne.symm (hk g (List.mem_cons_self _ _)))

theorem scan_foldl_complete (files : List FSFile)
    (st : List String × List (String × String))
    (hnd : (files.map relPath).Nodup) :
    ∀ f ∈ files, scanIgnored f.parts = false →
      alookup (files.foldl scanStep st).2 (relPath f) = some (hashFile f) := by
  induction files generalizing st with
  | nil => intro f hf; simp at hf
  | cons g rest ih =>
      simp only [List.map_cons, List.nodup_cons] at hnd
      intro f hf hig
      rcases List.mem_cons.mp hf with rfl | hmem
      · rw [List.foldl_cons,
          scan_foldl_preserve rest _ _ (fun f' hf' hc => by
            apply hnd.1
            rw [← hc]
            exact List.mem_map.mpr ⟨f', hf', rfl⟩)]
        exact scanStep_self hig
      · rw [List.foldl_cons]
        exact ih _ hnd.2 f hmem hig

/-- Claim C7 (amended): after a `get_changed_files` run that takes the
full-scan path (the root mtime advanced past the recorded scan mtime),
the hash cache holds an entry for every currently existing, non-ignored
file whose value is the file's current fingerprint; when the fast
negative path applies (root mtime not advanced), the scan returns the
empty set with the cache left exactly as before — so the snapshot
invariant does not hold across the fast path when contents changed
without touching the root directory's mtime. -/
theorem getChangedFiles_snapshot (fs : FSTree) (st : ScanState)
    (hnd : (fs.files.map relPath).Nodup) :
    (st.lastScanMtime < fs.rootMtime →
      ∀ f ∈ fs.files, scanIgnored f.parts = false →
        alookup ((getChangedFiles fs st).2).hashes (relPath f)
          = some (hashFile f)) ∧
    (fs.rootMtime ≤ st.lastScanMtime → getChangedFiles fs st = ([], st)) := by
  constructor
  · intro hlt f hf hig
    unfold getChangedFiles
    rw [if_neg (by omega)]
    simp only
    exact scan_foldl_complete fs.files ([], st.hashes) hnd f hf hig
  · intro hle
    unfold getChangedFiles
    rw [if_pos hle]

/-- Witness for `getChangedFiles_snapshot`: a full scan refreshes the
cached fingerprint of the one file in the tree. -/
theorem getChangedFiles_snapshot_witness :
    alookup ((getChangedFiles ⟨5, [⟨["a.txt"], true, true, 10, 3, "h1"⟩]⟩
        ⟨[("a.txt", "h0")], 0⟩).2).hashes "a.txt" = some "h1" :=
  (getChangedFiles_snapshot ⟨5, [⟨["a.txt"], true, true, 10, 3, "h1"⟩]⟩
      ⟨[("a.txt", "h0")], 0⟩ (by decide)).1 (by decide)
    ⟨["a.txt"], true, true, 10, 3, "h1"⟩ (by decide) (by decide)

/-- File for the counterexample to claim C7 as stated: its content
changed (current fingerprint `new`) but the root directory's mtime did
not advance. -/
def c7File : FSFile := ⟨["a.txt"], true, true, 10, 3, "new"⟩

/-- See `c7File`. -/
def c7Tree : FSTree := ⟨5, [c7File]⟩

/-- See `c7File`. -/
def c7State : ScanState := ⟨[("a.txt", "old")], 5⟩

/-- Counterexample to claim C7 as stated: with the fast negative path
applying (root mtime 5 not past the recorded 5), the scan returns the
empty set and the cache still maps the existing non-ignored file to the
stale value `old`, not its current fingerprint `new`. -/
theorem getChangedFiles_fastpath_stale :
    scanIgnored c7File.parts = false ∧
    hashFile c7File = "new" ∧
    getChangedFiles c7Tree c7State = ([], c7State) ∧
    alookup ((getChangedFiles c7Tree c7State).2).hashes (relPath c7File)
      = some "old" := by decide

/-- File for claim C8's failing input: `stat` and `read` both fail. -/
def c8File : FSFile := ⟨["a.txt"], false, false, 10, 3, "x"⟩

/-- See `c8File`. -/
def c8Tree : FSTree := ⟨7, [c8File]⟩

/-- See `c8File`: the previous scan already cached the `error` sentinel
for this file. -/
def c8State : ScanState := ⟨[("a.txt", "error")], 0⟩

/-- Claim C8's failing input evaluated: the file is unreadable
(`_hash_file` returns the sentinel `error`), the full-scan path runs
(mtime 0 < 7), yet the changed set is empty because the sentinel equals
the value cached by the previous failing scan — the unreadable file is
silently reported as unchanged, contradicting the claim (and the source's
own `if we can't hash, assume it changed` intent). -/
theorem getChangedFiles_error_cached_unchanged :
    hashFile c8File = "error" ∧
    c8State.lastScanMtime < c8Tree.rootMtime ∧
    (getChangedFiles c8Tree c8State).1 = [] := by decide

/-! ## Claim C3: risk classification -/

/-- A one-file graph with no imports and no signature changes (no cycle,
no signature change). -/
def c3Graph : DepGraph := [("a.py", ⟨[], [], [], "python", []⟩)]

/-- 16 medium-severity impact entries for one changed file. -/
def c3HighImpacts : List (String × List (String × Impact)) :=
  [("a.py", (List.range 16).map
    (fun i => (toString i, (⟨["imports"], "medium"⟩ : Impact))))]

/-- 6 medium-severity impact entries for one changed file. -/
def c3MediumImpacts : List (String × List (String × Impact)) :=
  [("a.py", (List.range 6).map
    (fun i => (toString i, (⟨["imports"], "medium"⟩ : Impact))))]

/-- Claim C3 (amended): the risk level is `high` iff a cycle is detected
or more than 5 high-severity entries or more than 15 impacted files;
otherwise `medium` iff some changed file has signature changes or any
high-severity entry or more than 5 impacted files; otherwise `low`.  In
particular 16 impacted files with no cycle and no signature changes give
`high`; 6 impacted files with no high-severity entries and no signature
changes give `medium`; and a changed file with 0 impacted files gives
`low` *provided* there is no cycle and no signature change (a cycle or a
signature change raises it even with 0 impacted files). -/
theorem calculateRiskLevel_spec (g : DepGraph) (cf : List String)
    (fi : List (String × List (String × Impact))) :
    (calculateRiskLevel g cf fi = "high" ↔
      (detectCircularDependencies g = true ∨ highSeverityCountOf fi > 5 ∨
        totalImpactedOf fi > 15)) ∧
    (calculateRiskLevel g cf fi = "medium" ↔
      (¬(detectCircularDependencies g = true ∨ highSeverityCountOf fi > 5 ∨
          totalImpactedOf fi > 15) ∧
        (hasSigChangesOf g cf = true ∨ highSeverityCountOf fi > 0 ∨
          totalImpactedOf fi > 5))) ∧
    (calculateRiskLevel g cf fi = "low" ↔
      (¬(detectCircularDependencies g = true ∨ highSeverityCountOf fi > 5 ∨
          totalImpactedOf fi > 15) ∧
        ¬(hasSigChangesOf g cf = true ∨ highSeverityCountOf fi > 0 ∨
          totalImpactedOf fi > 5))) ∧
    calculateRiskLevel c3Graph ["a.py"] c3HighImpacts = "high" ∧
    calculateRiskLevel c3Graph ["a.py"] c3MediumImpacts = "medium" ∧
    calculateRiskLevel c3Graph ["a.py"] [("a.py", [])] = "low" := by
  have hbridge1 : (detectCircularDependencies g
        || decide (highSeverityCountOf fi > 5)
        || decide (totalImpactedOf fi > 15)) = true ↔
      (detectCircularDependencies g = true ∨ highSeverityCountOf fi > 5 ∨
        totalImpactedOf fi > 15) := by
    simp [Bool.or_eq_true, or_assoc]
  have hbridge2 : (hasSigChangesOf g cf
        || decide (highSeverityCountOf fi > 0)
        || decide (totalImpactedOf fi > 5)) = true ↔
      (hasSigChangesOf g cf = true ∨ highSeverityCountOf fi > 0 ∨
        totalImpactedOf fi > 5) := by
    simp [Bool.or_eq_true, or_assoc]
  refine ⟨?_, ?_, ?_, by decide, by decide, by decide⟩ <;>
    unfold calculateRiskLevel
  · by_cases h1 : (detectCircularDependencies g
        || decide (highSeverityCountOf fi > 5)
        || decide (totalImpactedOf fi > 15)) = true
    · rw [if_pos h1]
      exact iff_of_true rfl (hbridge1.mp h1)
    · rw [if_neg h1]
      refine iff_of_false ?_ (fun hc => h1 (hbridge1.mpr hc))
      split <;> decide
  · by_cases h1 : (detectCircularDependencies g
        || decide (highSeverityCountOf fi > 5)
        || decide (totalImpactedOf fi > 15)) = true
    · rw [if_pos h1]
      exact iff_of_false (by decide) (fun hc => hc.1 (hbridge1.mp h1))
    · rw [if_neg h1]
      by_cases h2 : (hasSigChangesOf g cf
          || decide (highSeverityCountOf fi > 0)
          || decide (totalImpactedOf fi > 5)) = true
      · rw [if_pos h2]
        exact iff_of_true rfl
          ⟨fun hc => h1 (hbridge1.mpr hc), hbridge2.mp h2⟩
      · rw [if_neg h2]
        exact iff_of_false (by decide) (fun hc => h2 (hbridge2.mpr hc.2))
  · by_cases h1 : (detectCircularDependencies g
        || decide (highSeverityCountOf fi > 5)
        || decide (totalImpactedOf fi > 15)) = true
    · rw [if_pos h1]
      exact iff_of_false (by decide) (fun hc => hc.1 (hbridge1.mp h1))
    · rw [if_neg h1]
      by_cases h2 : (hasSigChangesOf g cf
          || decide (highSeverityCountOf fi > 0)
          || decide (totalImpactedOf fi > 5)) = true
      · rw [if_pos h2]
        exact iff_of_false (by decide) (fun hc => hc.2 (hbridge2.mp h2))
      · rw [if_neg h2]
        exact iff_of_true rfl
          ⟨fun hc => h1 (hbridge1.mpr hc), fun hc => h2 (hbridge2.mpr hc)⟩

/-- Closed instance of `calculateRiskLevel_spec` (its 16-impacted-files
conjunct). -/
theorem calculateRiskLevel_spec_witness :
    calculateRiskLevel c3Graph ["a.py"] c3HighImpacts = "high" :=
  (calculateRiskLevel_spec c3Graph ["a.py"] c3HighImpacts).2.2.2.1

/-- Graph for the counterexample to claim C3's third instance: the single
changed file has a signature change. -/
def c3CexGraph : DepGraph :=
  [("a.py", ⟨[], [], [], "python", [⟨"f", "f(a)", "f(a, b)"⟩]⟩)]

/-- Counterexample to claim C3 as stated: a changed file with 0 impacted
files does *not* classify as `low` when it has a signature change — the
code returns `medium`. -/
theorem calculateRiskLevel_zero_impacts_not_low :
    totalImpactedOf [("a.py", ([] : List (String × Impact)))] = 0 ∧
    calculateRiskLevel c3CexGraph ["a.py"] [("a.py", [])] = "medium" := by
  decide

/-! ## Claim C4: circular-dependency detection -/

theorem alookup_cons_self {α : Type} (k : String) (v : α) (l : List (String × α)) :
    alookup ((k, v) :: l) k = some v := by
  simp [alookup]

theorem alookup_cons_ne {α : Type} {k' k : String} (hk : k' ≠ k) (v : α)
    (l : List (String × α)) : alookup ((k', v) :: l) k = alookup l k := by
  simp [alookup, hk]

theorem foldl_cycleFoldStep_true
    (ex : String → List String → Bool × List String) (recStack : List String)
    (v : List String) (todo : List String) :
    todo.foldl (cycleFoldStep ex recStack) (true, v) = (true, v) := by
  induction todo with
  | nil => rfl
  | cons x rest ih =>
      rw [List.foldl_cons]
      have hstep : cycleFoldStep ex recStack (true, v) x = (true, v) := rfl
      rw [hstep]
      exact ih

theorem foldl_cycleFoldStep_skip
    (ex : String → List String → Bool × List String) (recStack : List String)
    (v : List String) (todo : List String)
    (h : ∀ x ∈ todo, x ∈ v ∧ x ∉ recStack) :
    todo.foldl (cycleFoldStep ex recStack) (false, v) = (false, v) := by
  induction todo with
  | nil => rfl
  | cons x rest ih =>
      have hx := h x (List.mem_cons_self _ _)
      rw [List.foldl_cons]
      have hstep : cycleFoldStep ex recStack (false, v) x = (false, v) := by
        unfold cycleFoldStep
        simp [hx.1, hx.2]
      rw [hstep]
      exact ih (fun y hy => h y (List.mem_cons_of_mem _ hy))

theorem cycleFoldStep_backedge
    (ex : String → List String → Bool × List String) (recStack : List String)
    (v : List String) (x : String) (hv : x ∈ v) (hrs : x ∈ recStack) :
    cycleFoldStep ex recStack (false, v) x = (true, v) := by
  unfold cycleFoldStep
  simp [hv, hrs]

theorem cycleFoldStep_explore
    (ex : String → List String → Bool × List String) (recStack : List String)
    (v : List String) (x : String) (hv : x ∉ v) :
    cycleFoldStep ex recStack (false, v) x = ex x v := by
  unfold cycleFoldStep
  simp [hv]

theorem hasCycleNode_succ_found {g : DepGraph} {node : String}
    {entry : GraphEntry} (h : alookup g node = some entry) (fuel : Nat)
    (visited recStack : List String) :
    hasCycleNode g (fuel + 1) node visited recStack =
      (neighborList g entry.imports).foldl
        (cycleFoldStep (fun f v => hasCycleNode g fuel f v (node :: recStack))
          (node :: recStack))
        (false, node :: visited) := by
  show (match alookup g node with
    | none => ((false, node :: visited) : Bool × List String)
    | some entry =>
        (neighborList g entry.imports).foldl
          (cycleFoldStep (fun f v => hasCycleNode g fuel f v (node :: recStack))
            (node :: recStack))
          (false, node :: visited)) = _
  rw [h]

theorem detectCircular_cycle_aux (pA pB pC : String) (eA eB eC : GraphEntry)
    (hAB : pA ≠ pB) (hAC : pA ≠ pC) (hBC : pB ≠ pC)
    (hA1 : pB ∈ neighborList [(pA, eA), (pB, eB), (pC, eC)] eA.imports)
    (hA2 : ∀ x ∈ neighborList [(pA, eA), (pB, eB), (pC, eC)] eA.imports, x = pB)
    (hB1 : pC ∈ neighborList [(pA, eA), (pB, eB), (pC, eC)] eB.imports)
    (hB2 : ∀ x ∈ neighborList [(pA, eA), (pB, eB), (pC, eC)] eB.imports, x = pC)
    (hC1 : pA ∈ neighborList [(pA, eA), (pB, eB), (pC, eC)] eC.imports)
    (hC2 : ∀ x ∈ neighborList [(pA, eA), (pB, eB), (pC, eC)] eC.imports, x = pA) :
    detectCircularDependencies [(pA, eA), (pB, eB), (pC, eC)] = true := by
  have hlA : alookup [(pA, eA), (pB, eB), (pC, eC)] pA = some eA :=
    alookup_cons_self pA eA _
  have hlB : alookup [(pA, eA), (pB, eB), (pC, eC)] pB = some eB := by
    rw [alookup_cons_ne hAB, alookup_cons_self]
  have hlC : alookup [(pA, eA), (pB, eB), (pC, eC)] pC = some eC := by
    rw [alookup_cons_ne hAC, alookup_cons_ne hBC, alookup_cons_self]
  obtain ⟨restA, hnA⟩ :
      ∃ rest, neighborList [(pA, eA), (pB, eB), (pC, eC)] eA.imports
        = pB :: rest := by
    cases hn : neighborList [(pA, eA), (pB, eB), (pC, eC)] eA.imports with
    | nil => rw [hn] at hA1; exact absurd hA1 (List.not_mem_nil _)
    | cons x rest =>
        have hx : x = pB := hA2 x (by rw [hn]; exact List.mem_cons_self x rest)
        exact ⟨rest, by rw [hx]⟩ 
  obtain ⟨restB, hnB⟩ :
      ∃ rest, neighborList [(pA, eA), (pB, eB), (pC, eC)] eB.imports
        = pC :: rest := by
    cases hn : neighborList [(pA, eA), (pB, eB), (pC, eC)] eB.imports with
    | nil => rw [hn] at hB1; exact absurd hB1 (List.not_mem_nil _)
    | cons x rest =>
        have hx : x = pC := hB2 x (by rw [hn]; exact List.mem_cons_self x rest)
        exact ⟨rest, by rw [hx]⟩
  obtain ⟨restC, hnC⟩ :
      ∃ rest, neighborList [(pA, eA), (pB, eB), (pC, eC)] eC.imports
        = pA :: rest := by
    cases hn : neighborList [(pA, eA), (pB, eB), (pC, eC)] eC.imports with
    | nil => rw [hn] at hC1; exact absurd hC1 (List.not_mem_nil _)
    | cons x rest =>
        have hx : x = pA := hC2 x (by rw [hn]; exact List.mem_cons_self x rest)
        exact ⟨rest, by rw [hx]⟩
  have stepC : ∀ k : Nat,
      hasCycleNode [(pA, eA), (pB, eB), (pC, eC)] (k + 1) pC [pB, pA] [pB, pA]
        = (true, [pC, pB, pA]) := by
    intro k
    rw [hasCycleNode_succ_found hlC k, hnC, List.foldl_cons,
      cycleFoldStep_backedge _ _ _ _ (by simp) (by simp)]
    exact foldl_cycleFoldStep_true _ _ _ _
  have stepB : ∀ k : Nat,
      hasCycleNode [(pA, eA), (pB, eB), (pC, eC)] (k + 1 + 1) pB [pA] [pA]
        = (true, [pC, pB, pA]) := by
    intro k
    rw [hasCycleNode_succ_found hlB (k + 1), hnB, List.foldl_cons]
    have hstep : cycleFoldStep
        (fun f v => hasCycleNode [(pA, eA), (pB, eB), (pC, eC)] (k + 1) f v
          (pB :: [pA]))
        (pB :: [pA]) (false, pB :: [pA]) pC
        = hasCycleNode [(pA, eA), (pB, eB), (pC, eC)] (k + 1) pC
            (pB :: [pA]) (pB :: [pA]) :=
      cycleFoldStep_explore _ _ _ _ (by simp [Ne.symm hBC, Ne.symm hAC])
    rw [hstep, stepC k]
    exact foldl_cycleFoldStep_true _ _ _ _
  have stepA : ∀ k : Nat,
      hasCycleNode [(pA, eA), (pB, eB), (pC, eC)] (k + 1 + 1 + 1) pA [] []
        = (true, [pC, pB, pA]) := by
    intro k
    rw [hasCycleNode_succ_found hlA (k + 1 + 1), hnA, List.foldl_cons]
    have hstep : cycleFoldStep
        (fun f v => hasCycleNode [(pA, eA), (pB, eB), (pC, eC)] (k + 1 + 1) f v
          (pA :: []))
        (pA :: []) (false, pA :: []) pB
        = hasCycleNode [(pA, eA), (pB, eB), (pC, eC)] (k + 1 + 1) pB
            (pA :: []) (pA :: []) :=
      cycleFoldStep_explore _ _ _ _ (by simp [Ne.symm hAB])
    rw [hstep, stepB k]
    exact foldl_cycleFoldStep_true _ _ _ _
  unfold detectCircularDependencies
  apply List.any_eq_true.mpr
  refine ⟨(pA, eA), List.mem_cons_self _ _, ?_⟩
  show (hasCycleNode [(pA, eA), (pB, eB), (pC, eC)] (0 + 1 + 1 + 1 + 1)
    pA [] []).1 = true
  rw [stepA (0 + 1)]

theorem detectCircular_chain_aux (pA pB pC : String) (eA eB eC : GraphEntry)
    (hAB : pA ≠ pB) (hAC : pA ≠ pC) (hBC : pB ≠ pC)
    (hA1 : pB ∈ neighborList [(pA, eA), (pB, eB), (pC, eC)] eA.imports)
    (hA2 : ∀ x ∈ neighborList [(pA, eA), (pB, eB), (pC, eC)] eA.imports, x = pB)
    (hB1 : pC ∈ neighborList [(pA, eA), (pB, eB), (pC, eC)] eB.imports)
    (hB2 : ∀ x ∈ neighborList [(pA, eA), (pB, eB), (pC, eC)] eB.imports, x = pC)
    (hC0 : neighborList [(pA, eA), (pB, eB), (pC, eC)] eC.imports = []) :
    detectCircularDependencies [(pA, eA), (pB, eB), (pC, eC)] = false := by
  have hlA : alookup [(pA, eA), (pB, eB), (pC, eC)] pA = some eA :=
    alookup_cons_self pA eA _
  have hlB : alookup [(pA, eA), (pB, eB), (pC, eC)] pB = some eB := by
    rw [alookup_cons_ne hAB, alookup_cons_self]
  have hlC : alookup [(pA, eA), (pB, eB), (pC, eC)] pC = some eC := by
    rw [alookup_cons_ne hAC, alookup_cons_ne hBC, alookup_cons_self]
  obtain ⟨restA, hnA⟩ :
      ∃ rest, neighborList [(pA, eA), (pB, eB), (pC, eC)] eA.imports
        = pB :: rest := by
    cases hn : neighborList [(pA, eA), (pB, eB), (pC, eC)] eA.imports with
    | nil => rw [hn] at hA1; exact absurd hA1 (List.not_mem_nil _)
    | cons x rest =>
        have hx : x = pB := hA2 x (by rw [hn]; exact List.mem_cons_self x rest)
        exact ⟨rest, by rw [hx]⟩
  obtain ⟨restB, hnB⟩ :
      ∃ rest, neighborList [(pA, eA), (pB, eB), (pC, eC)] eB.imports
        = pC :: rest := by
    cases hn : neighborList [(pA, eA), (pB, eB), (pC, eC)] eB.imports with
    | nil => rw [hn] at hB1; exact absurd hB1 (List.not_mem_nil _)
    | cons x rest =>
        have hx : x = pC := hB2 x (by rw [hn]; exact List.mem_cons_self x rest)
        exact ⟨rest, by rw [hx]⟩
  have hArest : ∀ x ∈ restA, x = pB := fun x hx =>
    hA2 x (by rw [hnA]; exact List.mem_cons_of_mem _ hx)
  have hBrest : ∀ x ∈ restB, x = pC := fun x hx =>
    hB2 x (by rw [hnB]; exact List.mem_cons_of_mem _ hx)
  have stepC : ∀ (k : Nat) (v rs : List String),
      hasCycleNode [(pA, eA), (pB, eB), (pC, eC)] (k + 1) pC v rs
        = (false, pC :: v) := by
    intro k v rs
    rw [hasCycleNode_succ_found hlC k, hC0]
    rfl
  have stepB : ∀ k : Nat,
      hasCycleNode [(pA, eA), (pB, eB), (pC, eC)] (k + 1 + 1) pB [pA] [pA]
        = (false, [pC, pB, pA]) := by
    intro k
    rw [hasCycleNode_succ_found hlB (k + 1), hnB, List.foldl_cons]
    have hstep : cycleFoldStep
        (fun f v => hasCycleNode [(pA, eA), (pB, eB), (pC, eC)] (k + 1) f v
          (pB :: [pA]))
        (pB :: [pA]) (false, pB :: [pA]) pC
        = hasCycleNode [(pA, eA), (pB, eB), (pC, eC)] (k + 1) pC
            (pB :: [pA]) (pB :: [pA]) :=
      cycleFoldStep_explore _ _ _ _ (by simp [Ne.symm hBC, Ne.symm hAC])
    rw [hstep, stepC k (pB :: [pA]) (pB :: [pA])]
    exact foldl_cycleFoldStep_skip _ _ _ _ (fun x hx => by
      rw [hBrest x hx]
      exact ⟨by simp, by simp [Ne.symm hBC, Ne.symm hAC]⟩)
  have stepA : ∀ k : Nat,
      hasCycleNode [(pA, eA), (pB, eB), (pC, eC)] (k + 1 + 1 + 1) pA [] []
        = (false, [pC, pB, pA]) := by
    intro k
    rw [hasCycleNode_succ_found hlA (k + 1 + 1), hnA, List.foldl_cons]
    have hstep : cycleFoldStep
        (fun f v => hasCycleNode [(pA, eA), (pB, eB), (pC, eC)] (k + 1 + 1) f v
          (pA :: []))
        (pA :: []) (false, pA :: []) pB
        = hasCycleNode [(pA, eA), (pB, eB), (pC, eC)] (k + 1 + 1) pB
            (pA :: []) (pA :: []) :=
      cycleFoldStep_explore _ _ _ _ (by simp [Ne.symm hAB])
    rw [hstep, stepB k]
    exact foldl_cycleFoldStep_skip _ _ _ _ (fun x hx => by
      rw [hArest x hx]
      exact ⟨by simp, by simp [Ne.symm hAB]⟩)
  have startB :
      hasCycleNode [(pA, eA), (pB, eB), (pC, eC)] (0 + 1 + 1 + 1 + 1) pB [] []
        = (false, [pC, pB]) := by
    rw [hasCycleNode_succ_found hlB (0 + 1 + 1 + 1), hnB, List.foldl_cons]
    have hstep : cycleFoldStep
        (fun f v => hasCycleNode [(pA, eA), (pB, eB), (pC, eC)] (0 + 1 + 1 + 1)
          f v (pB :: []))
        (pB :: []) (false, pB :: []) pC
        = hasCycleNode [(pA, eA), (pB, eB), (pC, eC)] (0 + 1 + 1 + 1) pC
            (pB :: []) (pB :: []) :=
      cycleFoldStep_explore _ _ _ _ (by simp [Ne.symm hBC])
    rw [hstep, stepC (0 + 1 + 1) (pB :: []) (pB :: [])]
    exact foldl_cycleFoldStep_skip _ _ _ _ (fun x hx => by
      rw [hBrest x hx]
      exact ⟨by simp, by simp [Ne.symm hBC]⟩)
  have startC :
      hasCycleNode [(pA, eA), (pB, eB), (pC, eC)] (0 + 1 + 1 + 1 + 1) pC [] []
        = (false, [pC]) := stepC (0 + 1 + 1 + 1) [] []
  unfold detectCircularDependencies
  apply List.any_eq_false.mpr
  intro p hp
  rcases List.mem_cons.mp hp with rfl | hp2
  · show ¬((hasCycleNode [(pA, eA), (pB, eB), (pC, eC)] (0 + 1 + 1 + 1 + 1)
      pA [] []).1 = true)
    rw [stepA (0 + 1)]
    simp
  · rcases List.mem_cons.mp hp2 with rfl | hp3
    · show ¬((hasCycleNode [(pA, eA), (pB, eB), (pC, eC)] (0 + 1 + 1 + 1 + 1)
        pB [] []).1 = true)
      rw [startB]
      simp
    · rcases List.mem_cons.mp hp3 with rfl | hp4
      · show ¬((hasCycleNode [(pA, eA), (pB, eB), (pC, eC)] (0 + 1 + 1 + 1 + 1)
          pC [] []).1 = true)
        rw [startC]
        simp
      · exact absurd hp4 (List.not_mem_nil _)

/-- Claim C4 (amended): for every three-node dependency graph whose
resolved import edges — where an import identifier of `A` resolves to
file `B` when it is a (case-sensitive) substring of `B`'s full path or
equals `B`'s stem, the rule `detect_circular_dependencies` actually
implements (`resolvesImport`), which differs from the impact-analysis
substring rule of §4.4 — form exactly the cycle `A→B→C→A`, detection
returns `true`; when they form exactly the chain `A→B→C` with no
back-edge, it returns `false`. -/
theorem detectCircular_three_node :
    (∀ (pA pB pC : String) (eA eB eC : GraphEntry),
      pA ≠ pB → pA ≠ pC → pB ≠ pC →
      pB ∈ neighborList [(pA, eA), (pB, eB), (pC, eC)] eA.imports →
      (∀ x ∈ neighborList [(pA, eA), (pB, eB), (pC, eC)] eA.imports, x = pB) →
      pC ∈ neighborList [(pA, eA), (pB, eB), (pC, eC)] eB.imports →
      (∀ x ∈ neighborList [(pA, eA), (pB, eB), (pC, eC)] eB.imports, x = pC) →
      pA ∈ neighborList [(pA, eA), (pB, eB), (pC, eC)] eC.imports →
      (∀ x ∈ neighborList [(pA, eA), (pB, eB), (pC, eC)] eC.imports, x = pA) →
      detectCircularDependencies [(pA, eA), (pB, eB), (pC, eC)] = true) ∧
    (∀ (pA pB pC : String) (eA eB eC : GraphEntry),
      pA ≠ pB → pA ≠ pC → pB ≠ pC →
      pB ∈ neighborList [(pA, eA), (pB, eB), (pC, eC)] eA.imports →
      (∀ x ∈ neighborList [(pA, eA), (pB, eB), (pC, eC)] eA.imports, x = pB) →
      pC ∈ neighborList [(pA, eA), (pB, eB), (pC, eC)] eB.imports →
      (∀ x ∈ neighborList [(pA, eA), (pB, eB), (pC, eC)] eB.imports, x = pC) →
      neighborList [(pA, eA), (pB, eB), (pC, eC)] eC.imports = [] →
      detectCircularDependencies [(pA, eA), (pB, eB), (pC, eC)] = false) :=
  ⟨detectCircular_cycle_aux, detectCircular_chain_aux⟩

/-- Three-node cycle under the detector's own resolution rule. -/
def c4CycleGraph : DepGraph :=
  [("A.py", ⟨["B"], [], [], "python", []⟩),
   ("B.py", ⟨["C"], [], [], "python", []⟩),
   ("C.py", ⟨["A"], [], [], "python", []⟩)]

/-- Three-node chain under the detector's own resolution rule. -/
def c4ChainGraph : DepGraph :=
  [("A.py", ⟨["B"], [], [], "python", []⟩),
   ("B.py", ⟨["C"], [], [], "python", []⟩),
   ("C.py", ⟨[], [], [], "python", []⟩)]

/-- Witness for `detectCircular_three_node` at concrete graphs. -/
theorem detectCircular_three_node_witness :
    detectCircularDependencies c4CycleGraph = true ∧
    detectCircularDependencies c4ChainGraph = false :=
  ⟨detectCircular_three_node.1 "A.py" "B.py" "C.py" _ _ _
      (by decide) (by decide) (by decide) (by decide) (by decide)
      (by decide) (by decide) (by decide) (by decide),
   detectCircular_three_node.2 "A.py" "B.py" "C.py" _ _ _
      (by decide) (by decide) (by decide) (by decide) (by decide)
      (by decide) (by decide) (by decide)⟩

/-- Graph for the counterexample to claim C4 as stated: the import
identifiers contain the other files' lowercase basenames as substrings
(the impact-analysis rule of §4.4), but are neither substrings of any
file path nor equal to any stem (the detector's rule). -/
def c4CexGraph : DepGraph :=
  [("A.py", ⟨["bqq"], [], [], "python", []⟩),
   ("B.py", ⟨["cqq"], [], [], "python", []⟩),
   ("C.py", ⟨["aqq"], [], [], "python", []⟩)]

/-- Counterexample to claim C4 as stated: under the impact-analysis
substring rule referenced by the claim (`specImportEdge`, §4.4)
the import edges form exactly the three-node cycle `A→B→C→A`, yet
`detect_circular_dependencies` — which uses a different resolution rule —
returns `false`. -/
theorem detectCircular_spec_rule_cycle_missed :
    specImportEdge c4CexGraph "A.py" "B.py" = true ∧
    specImportEdge c4CexGraph "B.py" "C.py" = true ∧
    specImportEdge c4CexGraph "C.py" "A.py" = true ∧
    specImportEdge c4CexGraph "A.py" "A.py" = false ∧
    specImportEdge c4CexGraph "A.py" "C.py" = false ∧
    specImportEdge c4CexGraph "B.py" "A.py" = false ∧
    specImportEdge c4CexGraph "B.py" "B.py" = false ∧
    specImportEdge c4CexGraph "C.py" "B.py" = false ∧
    specImportEdge c4CexGraph "C.py" "C.py" = false ∧
    detectCircularDependencies c4CexGraph = false := by decide
